import Mathlib

/-!
Verification development for the 4castr prediction-market swarm.

The repository's core is:
* `services/geminiService.ts` — `orchestrateAgents`, `runAgentAnalysis`,
  `generateConsensus`: thin wrappers around a generative text-completion
  service, with JSON parsing and fixed sentinel fallbacks;
* `App.tsx` — the swarm controller: a single `MarketAnalysis` React state
  updated by pure functional `setAnalysis` updaters, sequencing
  orchestration → parallel agent analyses (`Promise.all`) → consensus;
* `types.ts` / `constants.ts` — the data model and the fixed agent catalog.

The completion service is a black box; each call's observable behaviour is
abstracted as a `CallOutcome` (the call rejects, resolves without text, or
resolves with a text body).  Everything after the call returns — trimming,
code-fence stripping, `JSON.parse`, field access, filtering, sentinel
substitution, and all state updates — is modelled concretely below.
`JSON.parse` is modelled by an executable recursive-descent parser over
`List Char` (integer numerals; the standard escapes).
-/

/-! ## JSON values and a model of `JSON.parse` -/

inductive Json where
  | null
  | bool (b : Bool)
  | num (n : Int)
  | str (s : String)
  | arr (elems : List Json)
  | obj (fields : List (String × Json))

/-- Whitespace accepted by JSON (and trimmed by `String.prototype.trim`). -/
def isWS (c : Char) : Bool :=
  c = ' ' || c = '\t' || c = '\n' || c = '\r'

def skipWS (l : List Char) : List Char := l.dropWhile isWS

/-- Translate a backslash escape, as `JSON.parse` does for the common cases. -/
def escChar : Char → Char
  | 'n' => '\n'
  | 't' => '\t'
  | 'r' => '\r'
  | 'b' => '\x08'
  | 'f' => '\x0c'
  | c => c

/-- Scan a string body up to the closing quote, translating escapes. -/
def parseStrChars : List Char → Option (List Char × List Char)
  | [] => none
  | '"' :: rest => some ([], rest)
  | '\\' :: c :: rest =>
    (parseStrChars rest).map (fun p => (escChar c :: p.1, p.2))
  | c :: rest =>
    (parseStrChars rest).map (fun p => (c :: p.1, p.2))

/-- Accumulate a run of decimal digits. -/
def parseDigits : List Char → Nat → Nat × List Char
  | [], acc => (acc, [])
  | c :: rest, acc =>
    if c.isDigit then parseDigits rest (acc * 10 + (c.toNat - 48))
    else (acc, c :: rest)

/-- Parsing mode: a single value, array elements, or object fields. -/
inductive PMode where
  | val
  | elems
  | fields

/-- Parsing result, tagged by mode. -/
inductive PRes where
  | v (j : Json)
  | vs (js : List Json)
  | fs (kvs : List (String × Json))

/-- Fuel-bounded recursive-descent JSON parser (single structural recursion
on the fuel so that the kernel can evaluate it). -/
def parseCore : Nat → PMode → List Char → Option (PRes × List Char)
  | 0, _, _ => none
  | fuel + 1, .val, l =>
    match skipWS l with
    | '\x7b' :: rest =>
      match parseCore fuel .fields rest with
      | some (.fs kvs, r) => some (.v (Json.obj kvs), r)
      | _ => none
    | '[' :: rest =>
      match parseCore fuel .elems rest with
      | some (.vs js, r) => some (.v (Json.arr js), r)
      | _ => none
    | '"' :: rest =>
      (parseStrChars rest).map (fun p => (.v (Json.str ⟨p.1⟩), p.2))
    | '-' :: c :: rest =>
      if c.isDigit then
        let p := parseDigits (c :: rest) 0
        some (.v (Json.num (-(p.1 : Int))), p.2)
      else none
    | 't' :: 'r' :: 'u' :: 'e' :: rest => some (.v (Json.bool true), rest)
    | 'f' :: 'a' :: 'l' :: 's' :: 'e' :: rest => some (.v (Json.bool false), rest)
    | 'n' :: 'u' :: 'l' :: 'l' :: rest => some (.v Json.null, rest)
    | c :: rest =>
      if c.isDigit then
        let p := parseDigits (c :: rest) 0
        some (.v (Json.num (p.1 : Int)), p.2)
      else none
    | [] => none
  | fuel + 1, .elems, l =>
    match skipWS l with
    | ']' :: rest => some (.vs [], rest)
    | _ =>
      match parseCore fuel .val l with
      | some (.v v, r) =>
        (match skipWS r with
         | ',' :: r2 =>
           match parseCore fuel .elems r2 with
           | some (.vs vs, rr) => some (.vs (v :: vs), rr)
           | _ => none
         | ']' :: r2 => some (.vs [v], r2)
         | _ => none)
      | _ => none
  | fuel + 1, .fields, l =>
    match skipWS l with
    | '\x7d' :: rest => some (.fs [], rest)
    | '"' :: rest =>
      match parseStrChars rest with
      | some (key, r) =>
        (match skipWS r with
         | ':' :: r2 =>
           match parseCore fuel .val r2 with
           | some (.v v, r3) =>
             (match skipWS r3 with
              | ',' :: r4 =>
                match parseCore fuel .fields r4 with
                | some (.fs fs, rr) => some (.fs ((⟨key⟩, v) :: fs), rr)
                | _ => none
              | '\x7d' :: r4 => some (.fs [(⟨key⟩, v)], r4)
              | _ => none)
           | _ => none
         | _ => none)
      | none => none
    | _ => none

/-- Model of `JSON.parse`: parse one value, allow trailing whitespace only;
any other input throws (modelled as `none`). -/
def jsonParse (s : String) : Option Json :=
  match parseCore (2 * s.data.length + 4) .val s.data with
  | some (.v j, rest) => if (skipWS rest).isEmpty then some j else none
  | _ => none

/-- Model of JavaScript property access `j.key` on a parsed JSON value:
a field of an object, `undefined` (i.e. `none`) otherwise. -/
def getField (j : Json) (key : String) : Option Json :=
  match j with
  | .obj fields => ((fields.find? (fun p => p.1 = key)).map (fun p => p.2))
  | _ => none

/-! ## The completion-service boundary

`getAI().models.generateContent(...)` either rejects, or resolves to a
response whose `.text` is absent/empty, or resolves with a text body.  The
prompt contents do not influence which of these happens from the caller's
point of view, so each call site takes the outcome as a parameter. -/

inductive CallOutcome where
  | throws
  | noText
  | text (s : String)

/-! ## `orchestrateAgents` (services/geminiService.ts, lines 108–141) -/

def orchestrateAgents (topic : String) (availableRoles : List String)
    (outcome : CallOutcome) : List String :=
  match outcome with
  | .throws => availableRoles.take 3
  | .noText => availableRoles.take 3
  | .text s =>
    match jsonParse s with
    | none => availableRoles.take 3
    | some data =>
      match getField data ("selectedAgents") with
      | some (Json.arr items) =>
        items.filterMap (fun j =>
          match j with
          | Json.str r => if r ∈ availableRoles then some r else none
          | _ => none)
      | _ => availableRoles.take 3

/-! ## `runAgentAnalysis` (services/geminiService.ts, lines 143–188) -/

/-- Character-list trim from the left. -/
def trimLeft (l : List Char) : List Char := l.dropWhile isWS

/-- Character-list trim from the right. -/
def trimRight (l : List Char) : List Char := (l.reverse.dropWhile isWS).reverse

/-- Model of `String.prototype.trim`. -/
def trimChars (l : List Char) : List Char := trimRight (trimLeft l)

def trimStr (s : String) : String := ⟨trimChars s.data⟩

/-- Model of `jsonStr.replace(/^```(json)?|```$/g, '')`: remove a leading
```` ```json ```` or ```` ``` ```` marker and a trailing ```` ``` ```` marker. -/
def stripFenceMarks (l : List Char) : List Char :=
  let l1 :=
    if ("```json".data).isPrefixOf l then l.drop 7
    else if ("```".data).isPrefixOf l then l.drop 3
    else l
  if ("```".data).isSuffixOf l1 then l1.take (l1.length - 3) else l1

/-- The response-text preprocessing of `runAgentAnalysis`: trim, then if the
text starts with a code fence, strip the fence markers and trim again. -/
def processText (s : String) : String :=
  let j := trimChars s.data
  if ("```".data).isPrefixOf j then ⟨trimChars (stripFenceMarks j)⟩ else ⟨j⟩

/-- The sentinel finding returned on any failure (lines 182–187). -/
def sentinelFindings : Json :=
  Json.obj
    [(("keyFindings"),
      Json.arr [Json.str ("Data unavailable"), Json.str ("Analysis inconclusive"),
                Json.str ("Check source manually")]),
     (("confidenceScore"), Json.num 50),
     (("prediction"), Json.str ("UNCERTAIN")),
     (("reasoning"), Json.str ("Analysis failed due to connection or model error."))]

def runAgentAnalysis (role topic : String) (outcome : CallOutcome) : Json :=
  match outcome with
  | .throws => sentinelFindings
  | .noText => sentinelFindings
  | .text s =>
    match jsonParse (processText s) with
    | some v => v
    | none => sentinelFindings

/-! ## `generateConsensus` (services/geminiService.ts, lines 190–230) -/

/-- `a.data.keyFindings.join('; ')` evaluates without throwing exactly when
`keyFindings` is an array. -/
def keyFindingsJoinable (data : Json) : Bool :=
  match getField data ("keyFindings") with
  | some (Json.arr _) => true
  | _ => false

/-- The context template of `generateConsensus` is built before its
`try` block; it throws a `TypeError` iff some entry's `keyFindings` has no
`join` method. -/
def contextOk (agentResults : List (String × Json)) : Bool :=
  agentResults.all (fun a => keyFindingsJoinable a.2)

/-- The neutral sentinel returned on any call or parse failure (lines 225–229). -/
def sentinelConsensus : Json :=
  Json.obj
    [(("probability"), Json.num 50),
     (("topReasons"),
      Json.arr [Json.str ("Conflicting data"), Json.str ("Insufficient consensus")]),
     (("verdict"), Json.str ("Unable to reach consensus."))]

/-- `generateConsensus`; `none` models the promise rejecting (which the code
can do while interpolating the context, before the `try`). -/
def generateConsensus (topic : String) (agentResults : List (String × Json))
    (outcome : CallOutcome) : Option Json :=
  if contextOk agentResults then
    some
      (match outcome with
       | .throws => sentinelConsensus
       | .noText => sentinelConsensus
       | .text s =>
         match jsonParse s with
         | some v => v
         | none => sentinelConsensus)
  else none

example : jsonParse ("\x7b\"a\": [1, -2], \"b\": \"x\"\x7d")
    = some (Json.obj [(("a"), Json.arr [Json.num 1, Json.num (-2)]), (("b"), Json.str ("x"))]) := by
  rfl

example : jsonParse ("[tru") = none := by rfl

/-! ## Data model (types.ts) and agent catalog (constants.ts) -/

inductive AgentStatus where
  | idle
  | selected
  | analyzing
  | completed
deriving DecidableEq

inductive RunStatus where
  | input
  | orchestrating
  | swarming
  | consensus
deriving DecidableEq

structure AgentTemplate where
  role : String
  description : String
  icon : String
  color : String

structure Agent where
  id : String
  role : String
  status : AgentStatus
  findings : Option Json
  description : String
  icon : String
  color : String

structure MarketAnalysis where
  topic : String
  url : Option String
  status : RunStatus
  agents : List Agent
  finalConsensus : Option Json

def AVAILABLE_AGENTS : List AgentTemplate :=
  [⟨("Newsfeed"), ("Scans global headlines and breaking news."), ("📰"),
    ("from-blue-500 to-cyan-400")⟩,
   ⟨("Social Media"), ("Analyzes sentiment on X/Twitter and viral trends."), ("🐦"),
    ("from-sky-500 to-indigo-500")⟩,
   ⟨("Reddit"), ("Deep dives into niche communities and contrarian views."), ("🤖"),
    ("from-orange-500 to-red-500")⟩,
   ⟨("Finance"), ("Reviews market data, earnings, and economic indicators."), ("📈"),
    ("from-emerald-500 to-green-400")⟩,
   ⟨("Macro"), ("Considers geopolitical events and large-scale trends."), ("🌍"),
    ("from-purple-500 to-pink-500")⟩,
   ⟨("Entertainment"), ("Tracks celebrity influence and pop culture shifts."), ("🎭"),
    ("from-yellow-400 to-amber-500")⟩]

/-- `AVAILABLE_AGENTS.map(a => a.role)` (App.tsx line 31). -/
def catalogRoles : List String := AVAILABLE_AGENTS.map (fun a => a.role)

/-! ## The swarm controller (App.tsx)

Each `setAnalysis(prev => …)` call site is a pure state updater; React
serialises functional updates, so a run is a fold of updaters (events) over
the state.  The event order is whatever the JS event loop produces. -/

/-- `{ ...template, id: idx.toString(), status: 'selected' }` for the
template found in the catalog (App.tsx lines 35–38); `find` returning
`undefined` is modelled by the all-empty template, matching the spread of
`undefined`. -/
def mkAgent (idx : Nat) (role : String) : Agent :=
  let template := (AVAILABLE_AGENTS.find? (fun a => a.role = role)).getD ⟨"", "", "", ""⟩
  { id := toString idx, role := template.role, status := .selected, findings := none,
    description := template.description, icon := template.icon, color := template.color }

/-- `selectedRoles.map((role, idx) => …)`: map with the running index. -/
def mkAgentsFrom : Nat → List String → List Agent
  | _, [] => []
  | idx, r :: rest => mkAgent idx r :: mkAgentsFrom (idx + 1) rest

def mkAgents (selectedRoles : List String) : List Agent := mkAgentsFrom 0 selectedRoles

inductive Event where
  | submit (topic : String)
  | deploy (agents : List Agent)
  | analyzing (tid : String)
  | complete (tid : String) (results : Json)
  | consensusStat
  | attach (c : Json)
  | reset

def initialAnalysis : MarketAnalysis :=
  { topic := "", url := none, status := .input, agents := [], finalConsensus := none }

/-- `prev.agents.map(a => a.id === tid ? { ...a, status: 'analyzing' } : a)`. -/
def analyzingUpdate (tid : String) (agents : List Agent) : List Agent :=
  agents.map (fun a => if a.id = tid then { a with status := .analyzing } else a)

/-- `prev.agents.map(a => a.id === tid ? { ...a, status: 'completed', findings: results } : a)`. -/
def completeUpdate (tid : String) (results : Json) (agents : List Agent) : List Agent :=
  agents.map (fun a =>
    if a.id = tid then { a with status := .completed, findings := some results } else a)

def applyEvent (s : MarketAnalysis) (e : Event) : MarketAnalysis :=
  match e with
  | .submit t => { s with topic := t, status := .orchestrating }
  | .deploy ags => { s with status := .swarming, agents := ags }
  | .analyzing tid => { s with agents := analyzingUpdate tid s.agents }
  | .complete tid results => { s with agents := completeUpdate tid results s.agents }
  | .consensusStat => { s with status := .consensus }
  | .attach c => { s with finalConsensus := some c }
  | .reset => initialAnalysis

def applyEvents (es : List Event) (s : MarketAnalysis) : MarketAnalysis :=
  es.foldl applyEvent s

/-! ## `Promise.all` over the agent promises (App.tsx lines 48–67)

`Promise.all` keeps one result slot per input promise and fills the slot of
each promise as it settles; the completion order is whatever the network
produces.  The aggregate resolves, once every slot is filled, to the slots
in input order. -/

def fillSlots (value : Nat → α) (order : List Nat) (slots : List (Option α)) :
    List (Option α) :=
  order.foldl (fun sl i => sl.set i (some (value i))) slots

def collectSlots : List (Option α) → Option (List α)
  | [] => some []
  | some a :: rest => (collectSlots rest).map (fun l => a :: l)
  | none :: _ => none

/-- `Promise.all` of `n` promises with values `value i`, settling in the
order `order`. -/
def promiseAll (n : Nat) (value : Nat → α) (order : List Nat) : Option (List α) :=
  collectSlots (fillSlots value order (List.replicate n none))

/-- The value of the `idx`-th agent promise:
`{ role: agent.role, data: await runAgentAnalysis(agent.role, inputText) }`. -/
def agentPromiseValue (agents : List Agent) (topic : String) (env : Nat → CallOutcome)
    (i : Nat) : String × Json :=
  let role := ((agents.get? i).map (fun a => a.role)).getD ""
  (role, runAgentAnalysis role topic (env i))

/-- The findings list in selection order: what `allFindings` must equal. -/
def selectionOrderFindings (agents : List Agent) (topic : String)
    (env : Nat → CallOutcome) : List (String × Json) :=
  (List.range agents.length).map (agentPromiseValue agents topic env)

/-! ## The trace of one run of `startAnalysis`

In the parallel variant all the `analyzing` updates run synchronously while
`newAgents.map(async …)` builds the promises, then the `completed` updates
arrive in arbitrary completion order, then `Promise.all` resolves and the
consensus stage begins. -/

def analyzingEvents (agents : List Agent) : List Event :=
  agents.map (fun a => Event.analyzing a.id)

def completeEvents (agents : List Agent) (topic : String) (env : Nat → CallOutcome)
    (order : List Nat) : List Event :=
  order.map (fun i => Event.complete (toString i) (agentPromiseValue agents topic env i).2)

def swarmEvents (agents : List Agent) (topic : String) (env : Nat → CallOutcome)
    (order : List Nat) : List Event :=
  analyzingEvents agents ++ completeEvents agents topic env order

/-- The state right after the orchestration stage: topic submitted, agents
materialised in `selected` status, run status `swarming`. -/
def postDeploy (topic : String) (roles : List String) : MarketAnalysis :=
  applyEvent (applyEvent initialAnalysis (.submit topic)) (.deploy (mkAgents roles))

example : (mkAgents [("Finance"), ("Macro")]).map (fun a => a.id) = [("0"), ("1")] := by rfl
example : (mkAgents [("Finance")]).map (fun a => a.role) = [("Finance")] := by rfl
example :
    promiseAll 3 (fun i => i * 10) [2, 0, 1] = some [0, 10, 20] := by rfl

/-! ## Auxiliary definitions used to state the claims -/

/-- Rank of an agent status in the lifecycle order
`idle → selected → analyzing → completed`. -/
def statusRank : AgentStatus → Nat
  | .idle => 0
  | .selected => 1
  | .analyzing => 2
  | .completed => 3

/-- The id targeted by a per-agent update event, if any. -/
def eventTarget : Event → Option String
  | .analyzing tid => some tid
  | .complete tid _ => some tid
  | _ => none

def isStrJson : Json → Bool
  | .str _ => true
  | _ => false

/-- The Agent Findings shape as the spec states it: `keyFindings` a sequence
of strings, `confidenceScore` an integer in `[0,100]`, `prediction` one of
YES/NO/UNCERTAIN, `reasoning` a string. -/
def isFindingsShape (j : Json) : Bool :=
  (match getField j ("keyFindings") with
   | some (.arr xs) => xs.all isStrJson
   | _ => false) &&
  (match getField j ("confidenceScore") with
   | some (.num n) => decide (0 ≤ n) && decide (n ≤ 100)
   | _ => false) &&
  (match getField j ("prediction") with
   | some (.str p) => p = ("YES") || p = ("NO") || p = ("UNCERTAIN")
   | _ => false) &&
  (match getField j ("reasoning") with
   | some (.str _) => true
   | _ => false)

/-- The consensus shape as the spec states it: `probability` an integer in
`[0,100]` and `topReasons` of length exactly 3. -/
def consensusClaimShape (j : Json) : Bool :=
  (match getField j ("probability") with
   | some (.num n) => decide (0 ≤ n) && decide (n ≤ 100)
   | _ => false) &&
  (match getField j ("topReasons") with
   | some (.arr xs) => xs.length == 3
   | _ => false)

/-- An agent-analysis call outcome the spec counts as a failure: rejection,
missing text, or text that does not parse after fence stripping. -/
def agentCallFails (outcome : CallOutcome) : Prop :=
  outcome = .throws ∨ outcome = .noText ∨
    ∃ s, outcome = .text s ∧ jsonParse (processText s) = none

/-- A consensus call outcome the spec counts as a failure. -/
def consensusCallFails (outcome : CallOutcome) : Prop :=
  outcome = .throws ∨ outcome = .noText ∨
    ∃ s, outcome = .text s ∧ jsonParse s = none

/-- A successful orchestration response whose selection has only one valid
role (the service is asked for 3–6 but nothing enforces it). -/
def c1ResponseText : String :=
  "\x7b\"selectedAgents\":[\"Finance\",\"Oracle\",\"Weather\",\"Sports\"],\"reasoning\":\"x\"\x7d"

/-- A successful (parsable) agent-analysis response that does not satisfy
the Agent Findings shape. -/
def c2ResponseText : String :=
  "\x7b\"keyFindings\":[],\"confidenceScore\":150,\"prediction\":\"MAYBE\",\"reasoning\":\"\"\x7d"

/-- A successful orchestration response none of whose selected names is a
catalog role. -/
def c10ResponseText : String :=
  "\x7b\"selectedAgents\":[\"Oracle\"],\"reasoning\":\"r\"\x7d"

/-- A finding produced by the abandoned run's in-flight agent call. -/
def staleFindings : Json :=
  Json.obj
    [(("keyFindings"), Json.arr [Json.str ("Old run evidence")]),
     (("confidenceScore"), Json.num 90),
     (("prediction"), Json.str ("YES")),
     (("reasoning"), Json.str ("From the abandoned run"))]

/-- The consensus produced by the abandoned run's in-flight consensus call. -/
def staleConsensus : Json :=
  Json.obj
    [(("probability"), Json.num 99),
     (("topReasons"), Json.arr [Json.str ("Stale reason")]),
     (("verdict"), Json.str ("Stale verdict"))]

def run1Agents : List Agent := mkAgents [("Finance"), ("Macro"), ("Newsfeed")]

def run2Agents : List Agent := mkAgents [("Newsfeed")]

/-- Reset race: run 1 deploys three agents and its three analysis calls go
in flight; the user resets and immediately submits a fresh topic, whose run
2 deploys one agent (id "0"); then run 1's stale resolutions arrive — its
per-agent completions (id "0" collides with run 2's agent), its
`status: 'consensus'` transition, and its `finalConsensus` attachment.
Every event is a `setAnalysis` updater actually issued by the code in this
order under the JS event loop. -/
def c5Trace : List Event :=
  [.submit ("Will X happen?"), .deploy run1Agents,
   .analyzing ("0"), .analyzing ("1"), .analyzing ("2"),
   .reset,
   .submit ("Will Y happen?"), .deploy run2Agents, .analyzing ("0"),
   .complete ("0") staleFindings, .complete ("1") staleFindings,
   .complete ("2") staleFindings,
   .consensusStat, .attach staleConsensus]

/-- A response text wrapped in a ```` ```json ```` fenced code block. -/
def fencedJson (t : String) : String := "```json\n" ++ t ++ "\n```"

/-- A response text wrapped in a plain ```` ``` ```` fenced code block. -/
def fencedPlain (t : String) : String := "```\n" ++ t ++ "\n```"


/-! # Claims -/

/-- C1, counterexample: a successful orchestration call whose parsed
selection contains four names, only one of them a catalog role, makes
`orchestrateAgents` return a list of length 1 — not between 3 and 6. -/
theorem c1_counterexample :
    orchestrateAgents ("t") catalogRoles (.text c1ResponseText) = [("Finance")] ∧
    ¬ (3 ≤ (orchestrateAgents ("t") catalogRoles (.text c1ResponseText)).length ∧
        (orchestrateAgents ("t") catalogRoles (.text c1ResponseText)).length ≤ 6) := by
  exact ⟨rfl, by decide⟩

/-- C1, amended: for every role list and topic, `orchestrateAgents` returns
a sequence all of whose elements belong to `availableRoles`; whenever the
service call rejects or returns no text it returns exactly the first 3
elements of `availableRoles` in catalog order; when the call succeeds the
result is the returned selection filtered to `availableRoles`, whose length
is not constrained to [3,6]. -/
theorem c1_amended (topic : String) (availableRoles : List String) (outcome : CallOutcome) :
    (∀ r ∈ orchestrateAgents topic availableRoles outcome, r ∈ availableRoles) ∧
    ((outcome = .throws ∨ outcome = .noText) →
      orchestrateAgents topic availableRoles outcome = availableRoles.take 3) := by
  cases outcome with
  | throws => exact ⟨fun r hr => List.take_subset _ _ hr, fun _ => rfl⟩
  | noText => exact ⟨fun r hr => List.take_subset _ _ hr, fun _ => rfl⟩
  | text s =>
    refine ⟨fun r hr => ?_, fun h => by rcases h with h | h <;> exact absurd h (by simp)⟩
    rcases hp : jsonParse s with _ | data
    · simp only [orchestrateAgents, hp] at hr; exact List.take_subset _ _ hr
    rcases hf : getField data ("selectedAgents") with _ | j
    · simp only [orchestrateAgents, hp, hf] at hr; exact List.take_subset _ _ hr
    simp only [orchestrateAgents, hp, hf] at hr
    cases j with
    | arr items =>
      rcases List.mem_filterMap.mp hr with ⟨j, _, hj⟩
      cases j with
      | str r' =>
        have hj' : (if r' ∈ availableRoles then some r' else none) = some r := hj
        by_cases hmem : r' ∈ availableRoles
        · rw [if_pos hmem] at hj'; cases hj'; exact hmem
        · rw [if_neg hmem] at hj'; cases hj'
      | null => exact absurd hj (by simp)
      | bool b => exact absurd hj (by simp)
      | num n => exact absurd hj (by simp)
      | arr es => exact absurd hj (by simp)
      | obj fs => exact absurd hj (by simp)
    | null => exact List.take_subset _ _ hr
    | bool b => exact List.take_subset _ _ hr
    | num n => exact List.take_subset _ _ hr
    | str s' => exact List.take_subset _ _ hr
    | obj fs => exact List.take_subset _ _ hr

/-- C1, witness for the amended claim at a concrete failing call. -/
theorem c1_amended_witness :
    (∀ r ∈ orchestrateAgents ("t") catalogRoles .throws, r ∈ catalogRoles) ∧
    orchestrateAgents ("t") catalogRoles .throws = catalogRoles.take 3 :=
  ⟨(c1_amended ("t") catalogRoles .throws).1,
   (c1_amended ("t") catalogRoles .throws).2 (Or.inl rfl)⟩

/-- C2, counterexample: a successful agent-analysis response that parses but
has `confidenceScore = 150` and `prediction = "MAYBE"` is returned verbatim,
so the resolved value does not satisfy the Agent Findings shape. -/
theorem c2_counterexample :
    isFindingsShape (runAgentAnalysis ("Finance") ("t") (.text c2ResponseText)) = false := by
  rfl

/-- C2, amended: `runAgentAnalysis` always resolves; on any failure it
resolves to the sentinel finding, and on success it resolves to the parsed
JSON value, returned without validation (so the Agent Findings shape is not
guaranteed). -/
theorem c2_amended (role topic : String) (outcome : CallOutcome) :
    runAgentAnalysis role topic outcome = sentinelFindings ∨
    ∃ s v, outcome = .text s ∧ jsonParse (processText s) = some v ∧
      runAgentAnalysis role topic outcome = v := by
  cases outcome with
  | throws => exact Or.inl rfl
  | noText => exact Or.inl rfl
  | text s =>
    rcases h : jsonParse (processText s) with _ | v
    · exact Or.inl (by simp [runAgentAnalysis, h])
    · exact Or.inr ⟨s, v, rfl, h, by simp [runAgentAnalysis, h]⟩

/-- C3: whenever an agent analysis call fails (rejection, missing text, or
unparsable response), `runAgentAnalysis` resolves to exactly the documented
sentinel finding, and a per-agent completion update leaves every sibling
agent (any agent whose id differs) unchanged. -/
theorem c3_failure_sentinel :
    (∀ role topic outcome, agentCallFails outcome →
      runAgentAnalysis role topic outcome = sentinelFindings) ∧
    (∀ tid results (agents : List Agent) (i : Nat) a, agents[i]? = some a → a.id ≠ tid →
      (completeUpdate tid results agents)[i]? = some a) := by
  constructor
  · intro role topic outcome h
    rcases h with h | h | ⟨s, hs, hp⟩
    · rw [h]; rfl
    · rw [h]; rfl
    · rw [hs]; simp [runAgentAnalysis, hp]
  · intro tid results agents i a hget hne
    simp only [completeUpdate, List.getElem?_map, hget, Option.map_some']
    rw [if_neg hne]

/-- C3, witness: a rejecting call resolves to the sentinel. -/
theorem c3_witness :
    agentCallFails .throws ∧ runAgentAnalysis ("Finance") ("t") .throws = sentinelFindings :=
  ⟨Or.inl rfl, c3_failure_sentinel.1 ("Finance") ("t") .throws (Or.inl rfl)⟩

/-- C4, counterexample: on a failed consensus call the resolved sentinel has
`topReasons` of length 2, so the claimed shape (`topReasons` of length
exactly 3) does not hold. -/
theorem c4_counterexample :
    generateConsensus ("t") [(("Finance"), sentinelFindings)] .throws = some sentinelConsensus ∧
    consensusClaimShape sentinelConsensus = false :=
  ⟨rfl, rfl⟩

/-- C4, amended: for inputs whose entries have array-valued `keyFindings`
(as the `AgentFindings` type guarantees), `generateConsensus` always
resolves; on any call or parse failure it resolves to the neutral sentinel
(`probability = 50`, `topReasons` of length 2, the documented verdict); on
success it returns the parsed response without validating the probability
range or the number of reasons. -/
theorem c4_amended (topic : String) (agentResults : List (String × Json))
    (outcome : CallOutcome) (hctx : contextOk agentResults = true) :
    ∃ r, generateConsensus topic agentResults outcome = some r ∧
      (consensusCallFails outcome → r = sentinelConsensus) := by
  cases outcome with
  | throws => exact ⟨sentinelConsensus, by simp [generateConsensus, hctx], fun _ => rfl⟩
  | noText => exact ⟨sentinelConsensus, by simp [generateConsensus, hctx], fun _ => rfl⟩
  | text s =>
    rcases h : jsonParse s with _ | v
    · exact ⟨sentinelConsensus, by simp [generateConsensus, hctx, h], fun _ => rfl⟩
    · refine ⟨v, by simp [generateConsensus, hctx, h], fun hc => ?_⟩
      rcases hc with hc | hc | ⟨s', hs', hp⟩
      · cases hc
      · cases hc
      · cases hs'; rw [hp] at h; cases h

/-- C4, witness for the amended claim at a concrete failing call. -/
theorem c4_amended_witness :
    contextOk [(("Finance"), sentinelFindings)] = true ∧
    ∃ r, generateConsensus ("t") [(("Finance"), sentinelFindings)] .throws = some r ∧
      (consensusCallFails .throws → r = sentinelConsensus) :=
  ⟨rfl, c4_amended ("t") [(("Finance"), sentinelFindings)] .throws rfl⟩

/-- C5 (code bug): replaying the `setAnalysis` updaters the code issues when
a reset and a fresh submission happen while run 1's calls are in flight:
the fresh run's Market Analysis ends up with run 1's findings on its agent
(id collision at "0"), run 1's `consensus` status transition, and run 1's
`finalConsensus` — stale resolutions are not ignored. -/
theorem c5_stale_updates_reach_fresh_run :
    (applyEvents c5Trace initialAnalysis).topic = ("Will Y happen?") ∧
    (applyEvents c5Trace initialAnalysis).agents.map (fun a => (a.id, a.status, a.findings))
      = [(("0"), AgentStatus.completed, some staleFindings)] ∧
    (applyEvents c5Trace initialAnalysis).status = .consensus ∧
    (applyEvents c5Trace initialAnalysis).finalConsensus = some staleConsensus :=
  ⟨rfl, rfl, rfl, rfl⟩

/-- C10: when the orchestration call succeeds and parses but every selected
name lies outside `availableRoles`, `orchestrateAgents` returns the empty
sequence (the first-3 fallback is not applied), so zero Agent Instances are
created and the consensus stage receives an empty findings list. -/
theorem c10_invalid_selection_yields_empty (topic : String) (availableRoles : List String)
    (s : String) (v : Json) (xs : List Json)
    (hparse : jsonParse s = some v)
    (hfield : getField v ("selectedAgents") = some (Json.arr xs))
    (hinvalid : ∀ r : String, Json.str r ∈ xs → r ∉ availableRoles) :
    orchestrateAgents topic availableRoles (.text s) = [] ∧
    mkAgents (orchestrateAgents topic availableRoles (.text s)) = [] ∧
    ∀ env : Nat → CallOutcome,
      selectionOrderFindings (mkAgents (orchestrateAgents topic availableRoles (.text s)))
        topic env = [] := by
  have hmain : orchestrateAgents topic availableRoles (.text s) = [] := by
    simp only [orchestrateAgents, hparse, hfield]
    rw [List.filterMap_eq_nil_iff]
    intro j hj
    cases j with
    | str r => show (if r ∈ availableRoles then some r else none) = none; rw [if_neg (hinvalid r hj)]
    | null => rfl
    | bool b => rfl
    | num n => rfl
    | arr es => rfl
    | obj fs => rfl
  refine ⟨hmain, by rw [hmain]; rfl, fun env => by rw [hmain]; rfl⟩

/-- C10, witness at a concrete hallucinated selection. -/
theorem c10_witness :
    orchestrateAgents ("t") catalogRoles (.text c10ResponseText) = [] ∧
    mkAgents (orchestrateAgents ("t") catalogRoles (.text c10ResponseText)) = [] ∧
    ∀ env : Nat → CallOutcome,
      selectionOrderFindings (mkAgents (orchestrateAgents ("t") catalogRoles (.text c10ResponseText)))
        ("t") env = [] := by
  refine c10_invalid_selection_yields_empty ("t") catalogRoles c10ResponseText
    (Json.obj [(("selectedAgents"), Json.arr [Json.str ("Oracle")]),
               (("reasoning"), Json.str ("r"))])
    [Json.str ("Oracle")] rfl rfl ?_
  intro r hr
  have : Json.str r = Json.str ("Oracle") := List.mem_singleton.mp hr
  cases this
  decide

/-! ## `Promise.all` slot lemmas (for C6) -/

theorem fillSlots_nil (value : Nat → α) (slots : List (Option α)) :
    fillSlots value [] slots = slots := rfl

theorem fillSlots_cons (value : Nat → α) (j : Nat) (rest : List Nat)
    (slots : List (Option α)) :
    fillSlots value (j :: rest) slots = fillSlots value rest (slots.set j (some (value j))) := rfl

theorem getElem?_fillSlots (value : Nat → α) (order : List Nat) (slots : List (Option α))
    (i : Nat) :
    (fillSlots value order slots)[i]? =
      if i ∈ order ∧ i < slots.length then some (some (value i)) else slots[i]? := by
  induction order generalizing slots with
  | nil => simp [fillSlots_nil]
  | cons j rest ih =>
    rw [fillSlots_cons, ih]
    by_cases hlen : i < slots.length
    · by_cases hij : i = j
      · subst hij
        by_cases hir : i ∈ rest
        · rw [if_pos ⟨hir, by simpa using hlen⟩,
              if_pos ⟨List.mem_cons_self i rest, hlen⟩]
        · rw [if_neg (fun h => hir h.1), if_pos ⟨List.mem_cons_self i rest, hlen⟩,
              List.getElem?_set_self hlen]
      · rw [List.getElem?_set_ne (fun h => hij h.symm)]
        by_cases hir : i ∈ rest
        · rw [if_pos ⟨hir, by simpa using hlen⟩, if_pos ⟨List.mem_cons_of_mem j hir, hlen⟩]
        · rw [if_neg (fun h => hir h.1),
              if_neg (fun h => (List.mem_cons.mp h.1).elim hij hir)]
    · rw [if_neg (fun h => hlen (by simpa using h.2)), if_neg (fun h => hlen h.2),
          List.getElem?_eq_none (by simpa using Nat.le_of_not_lt hlen),
          List.getElem?_eq_none (Nat.le_of_not_lt hlen)]

theorem collectSlots_map_some (l : List α) : collectSlots (l.map some) = some l := by
  induction l with
  | nil => rfl
  | cons a rest ih => simp [collectSlots, ih]

theorem fillSlots_covering (value : Nat → α) (order : List Nat) (n : Nat)
    (hmem : ∀ i, i ∈ order ↔ i < n) :
    fillSlots value order (List.replicate n none) =
      (List.range n).map (fun i => some (value i)) := by
  apply List.ext_getElem?
  intro i
  rw [getElem?_fillSlots]
  by_cases hi : i < n
  · rw [if_pos ⟨(hmem i).mpr hi, by simpa using hi⟩, List.getElem?_map,
        List.getElem?_range hi]
    rfl
  · rw [if_neg (fun h => hi (by simpa using h.2)),
        List.getElem?_eq_none (by simpa using Nat.le_of_not_lt hi),
        List.getElem?_eq_none (by simpa using Nat.le_of_not_lt hi)]

/-- `Promise.all` resolves to the values in input order, for every
completion order that settles each promise. -/
theorem promiseAll_eq_of_perm (n : Nat) (value : Nat → α) (order : List Nat)
    (hperm : order.Perm (List.range n)) :
    promiseAll n value order = some ((List.range n).map value) := by
  have hmem : ∀ i, i ∈ order ↔ i < n := fun i => by
    rw [hperm.mem_iff, List.mem_range]
  rw [promiseAll, fillSlots_covering value order n hmem]
  have h2 : (List.range n).map (fun i => some (value i))
      = ((List.range n).map value).map some := by
    rw [List.map_map]; rfl
  rw [h2, collectSlots_map_some]

/-- C6: for every selected role sequence and every order in which the
per-agent calls resolve, the findings list `Promise.all` hands to
`generateConsensus` is the per-agent results in original selection order,
and its roles are exactly the agents' roles in selection order. -/
theorem c6_selection_order (roles : List String) (topic : String)
    (env : Nat → CallOutcome) (order : List Nat)
    (hperm : order.Perm (List.range (mkAgents roles).length)) :
    promiseAll (mkAgents roles).length (agentPromiseValue (mkAgents roles) topic env) order
      = some (selectionOrderFindings (mkAgents roles) topic env) ∧
    (selectionOrderFindings (mkAgents roles) topic env).map Prod.fst
      = (mkAgents roles).map (fun a => a.role) := by
  refine ⟨promiseAll_eq_of_perm _ _ _ hperm, ?_⟩
  apply List.ext_getElem?
  intro i
  by_cases hi : i < (mkAgents roles).length
  · have ha := List.getElem?_eq_getElem hi
    simp [selectionOrderFindings, agentPromiseValue, List.getElem?_map,
      List.getElem?_range hi, List.get?_eq_getElem?, ha]
  · rw [List.getElem?_eq_none, List.getElem?_eq_none]
    · simpa using Nat.le_of_not_lt hi
    · simpa [selectionOrderFindings] using Nat.le_of_not_lt hi

/-- C6, witness at three agents resolving in the order 2, 0, 1. -/
theorem c6_witness :
    ([2, 0, 1] : List Nat).Perm
      (List.range (mkAgents [("Finance"), ("Macro"), ("Newsfeed")]).length) ∧
    promiseAll (mkAgents [("Finance"), ("Macro"), ("Newsfeed")]).length
        (agentPromiseValue (mkAgents [("Finance"), ("Macro"), ("Newsfeed")]) ("t")
          (fun _ => .throws)) [2, 0, 1]
      = some (selectionOrderFindings (mkAgents [("Finance"), ("Macro"), ("Newsfeed")]) ("t")
          (fun _ => .throws)) :=
  ⟨by decide,
   (c6_selection_order [("Finance"), ("Macro"), ("Newsfeed")] ("t") (fun _ => .throws)
     [2, 0, 1] (by decide)).1⟩

/-! ## Run-trace lemmas (for C7, C9) -/

theorem applyEvents_append (es1 es2 : List Event) (s : MarketAnalysis) :
    applyEvents (es1 ++ es2) s = applyEvents es2 (applyEvents es1 s) :=
  List.foldl_append ..

theorem analyzingUpdate_map_id (tid : String) (agents : List Agent) :
    (analyzingUpdate tid agents).map (fun a => a.id) = agents.map (fun a => a.id) := by
  rw [analyzingUpdate, List.map_map]
  exact List.map_congr_left (fun a _ => by by_cases h : a.id = tid <;> simp [h])

theorem applyEvents_analyzing_map_id (tids : List String) (s : MarketAnalysis) :
    (applyEvents (tids.map Event.analyzing) s).agents.map (fun a => a.id)
      = s.agents.map (fun a => a.id) := by
  induction tids generalizing s with
  | nil => rfl
  | cons t rest ih =>
    rw [List.map_cons]
    show (applyEvents (rest.map Event.analyzing) (applyEvent s (.analyzing t))).agents.map _ = _
    rw [ih]
    exact analyzingUpdate_map_id t s.agents

theorem mem_mkAgentsFrom (idx : Nat) (roles : List String) :
    ∀ a ∈ mkAgentsFrom idx roles,
      ∃ k, k < roles.length ∧ a.id = toString (idx + k) ∧ a.status = .selected := by
  induction roles generalizing idx with
  | nil => intro a ha; cases ha
  | cons r rest ih =>
    intro a ha
    rcases List.mem_cons.mp ha with h | h
    · exact ⟨0, Nat.succ_pos _, by rw [h, Nat.add_zero]; exact ⟨rfl, rfl⟩⟩
    · rcases ih (idx + 1) a h with ⟨k, hk, hid, hst⟩
      exact ⟨k + 1, Nat.succ_lt_succ hk,
        by rw [hid]; congr 1; omega, hst⟩

theorem mem_mkAgents (roles : List String) :
    ∀ a ∈ mkAgents roles,
      ∃ k, k < roles.length ∧ a.id = toString k ∧ a.status = .selected := by
  intro a ha
  rcases mem_mkAgentsFrom 0 roles a ha with ⟨k, hk, hid, hst⟩
  exact ⟨k, hk, by rw [hid]; congr 1; omega, hst⟩

/-- After a sequence of completion events covering every agent's id, every
agent is `completed`. -/
theorem applyCompletes_all_completed (cs : List (String × Json)) :
    ∀ s : MarketAnalysis,
      (∀ a ∈ s.agents, a.id ∈ cs.map Prod.fst ∨ a.status = .completed) →
      ∀ a ∈ (applyEvents (cs.map (fun p => Event.complete p.1 p.2)) s).agents,
        a.status = .completed := by
  induction cs with
  | nil =>
    intro s h a ha
    rcases h a ha with h' | h'
    · exact absurd h' (List.not_mem_nil _)
    · exact h'
  | cons p rest ih =>
    intro s h a ha
    rw [List.map_cons] at ha
    refine ih (applyEvent s (.complete p.1 p.2)) ?_ a ha
    intro b hb
    rcases List.mem_map.mp hb with ⟨c, hc, hcb⟩
    by_cases hid : c.id = p.1
    · rw [if_pos hid] at hcb
      right; rw [← hcb]
    · rw [if_neg hid] at hcb
      subst hcb
      rcases h c hc with h' | h'
      · rw [List.map_cons] at h'
        rcases List.mem_cons.mp h' with h'' | h''
        · exact absurd h'' hid
        · left; exact h''
      · right; exact h'

theorem length_mkAgentsFrom (idx : Nat) (roles : List String) :
    (mkAgentsFrom idx roles).length = roles.length := by
  induction roles generalizing idx with
  | nil => rfl
  | cons r rest ih => simp [mkAgentsFrom, ih (idx + 1)]

theorem length_mkAgents (roles : List String) : (mkAgents roles).length = roles.length :=
  length_mkAgentsFrom 0 roles

/-- The pairs (agent id, result) delivered by the completion events. -/
theorem completeEvents_eq (agents : List Agent) (topic : String)
    (env : Nat → CallOutcome) (order : List Nat) :
    (order.map (fun i => (toString i, (agentPromiseValue agents topic env i).2))).map
        (fun p => Event.complete p.1 p.2)
      = completeEvents agents topic env order := by
  rw [List.map_map]; rfl

/-- C7: in every run, for every order in which the agent calls resolve,
by the time `Promise.all` has resolved — the moment the consensus stage
starts — every Agent Instance of the run is `completed`. -/
theorem c7_consensus_after_all_completed (roles : List String) (topic : String)
    (env : Nat → CallOutcome) (order : List Nat)
    (hperm : order.Perm (List.range (mkAgents roles).length)) :
    ∀ a ∈ (applyEvents (swarmEvents (mkAgents roles) topic env order)
        (postDeploy topic roles)).agents,
      a.status = .completed := by
  intro a ha
  rw [swarmEvents, applyEvents_append] at ha
  set cs : List (String × Json) :=
    order.map (fun i => (toString i, (agentPromiseValue (mkAgents roles) topic env i).2)) with hcs
  rw [← completeEvents_eq (mkAgents roles) topic env order] at ha
  refine applyCompletes_all_completed cs _ ?_ a ha
  intro b hb
  left
  have hids : (applyEvents (analyzingEvents (mkAgents roles)) (postDeploy topic roles)).agents.map
      (fun a => a.id) = (mkAgents roles).map (fun a => a.id) := by
    rw [analyzingEvents,
      show (fun a : Agent => Event.analyzing a.id)
          = (Event.analyzing ∘ fun a : Agent => a.id) from rfl,
      ← List.map_map]
    exact applyEvents_analyzing_map_id _ _
  have hbid : b.id ∈ (mkAgents roles).map (fun a => a.id) := by
    rw [← hids]
    exact List.mem_map.mpr ⟨b, hb, rfl⟩
  rcases List.mem_map.mp hbid with ⟨c, hc, hcb⟩
  rcases mem_mkAgents roles c hc with ⟨k, hk, hid, _⟩
  have hkmem : k ∈ order := by
    rw [hperm.mem_iff, List.mem_range, length_mkAgents]
    exact hk
  have : b.id = toString k := by rw [← hcb, hid]
  rw [this, hcs, List.map_map]
  exact List.mem_map.mpr ⟨k, hkmem, rfl⟩

/-- C7, witness: three agents resolving in the order 2, 0, 1 are all
`completed` when the consensus stage starts. -/
theorem c7_witness :
    ([2, 0, 1] : List Nat).Perm
      (List.range (mkAgents [("Finance"), ("Macro"), ("Newsfeed")]).length) ∧
    ∀ a ∈ (applyEvents
        (swarmEvents (mkAgents [("Finance"), ("Macro"), ("Newsfeed")]) ("t")
          (fun _ => .throws) [2, 0, 1])
        (postDeploy ("t") [("Finance"), ("Macro"), ("Newsfeed")])).agents,
      a.status = .completed :=
  ⟨by decide,
   c7_consensus_after_all_completed [("Finance"), ("Macro"), ("Newsfeed")] ("t")
     (fun _ => .throws) [2, 0, 1] (by decide)⟩

/-! ## Per-step lemmas for C9 -/

theorem applyEvents_take_succ (es : List Event) (k : Nat) (hk : k < es.length)
    (s : MarketAnalysis) :
    applyEvents (es.take (k + 1)) s = applyEvent (applyEvents (es.take k) s) es[k] := by
  rw [List.take_succ, List.getElem?_eq_getElem hk, applyEvents_append]
  rfl

theorem applyAnalyzing_status_mem (tids : List String) :
    ∀ s : MarketAnalysis,
      (∀ a ∈ s.agents, a.status = .selected ∨ a.status = .analyzing) →
      ∀ a ∈ (applyEvents (tids.map Event.analyzing) s).agents,
        a.status = .selected ∨ a.status = .analyzing := by
  induction tids with
  | nil => intro s h a ha; exact h a ha
  | cons t rest ih =>
    intro s h a ha
    rw [List.map_cons] at ha
    refine ih (applyEvent s (.analyzing t)) ?_ a ha
    intro b hb
    rcases List.mem_map.mp hb with ⟨c, hc, hcb⟩
    by_cases hid : c.id = t
    · rw [if_pos hid] at hcb; right; rw [← hcb]
    · rw [if_neg hid] at hcb; subst hcb; exact h c hc

theorem statusRank_le_completed (st : AgentStatus) : statusRank st ≤ 3 := by
  cases st <;> decide

theorem analyzingUpdate_mono (tid : String) (agents : List Agent)
    (h : ∀ a ∈ agents, a.status = .selected ∨ a.status = .analyzing)
    (i : Nat) (a a' : Agent) (ha : agents[i]? = some a)
    (ha' : (analyzingUpdate tid agents)[i]? = some a') :
    a'.id = a.id ∧ statusRank a.status ≤ statusRank a'.status ∧ (a.id ≠ tid → a' = a) := by
  rw [analyzingUpdate, List.getElem?_map, ha, Option.map_some'] at ha'
  have ha'' := Option.some.inj ha'
  by_cases hid : a.id = tid
  · rw [if_pos hid] at ha''
    refine ⟨by rw [← ha''], ?_, fun hne => absurd hid hne⟩
    rw [← ha'']
    show statusRank a.status ≤ statusRank .analyzing
    rcases h a (List.getElem?_mem ha) with h' | h' <;> rw [h'] <;> decide
  · rw [if_neg hid] at ha''
    exact ⟨by rw [← ha''], by rw [← ha''], fun _ => ha''.symm⟩

theorem completeUpdate_mono (tid : String) (results : Json) (agents : List Agent)
    (i : Nat) (a a' : Agent) (ha : agents[i]? = some a)
    (ha' : (completeUpdate tid results agents)[i]? = some a') :
    a'.id = a.id ∧ statusRank a.status ≤ statusRank a'.status ∧ (a.id ≠ tid → a' = a) := by
  rw [completeUpdate, List.getElem?_map, ha, Option.map_some'] at ha'
  have ha'' := Option.some.inj ha'
  by_cases hid : a.id = tid
  · rw [if_pos hid] at ha''
    refine ⟨by rw [← ha''], ?_, fun hne => absurd hid hne⟩
    rw [← ha'']
    exact statusRank_le_completed a.status
  · rw [if_neg hid] at ha''
    exact ⟨by rw [← ha''], by rw [← ha''], fun _ => ha''.symm⟩

/-- C9: along any single-run swarm trace (all `analyzing` updates issued at
fan-out, then completions in any order), every step keeps each agent's id,
never decreases any agent's status in the order
`idle → selected → analyzing → completed`, and a per-agent update leaves
every agent with a different id entirely unchanged (status and findings). -/
theorem c9_status_monotone (roles : List String) (topic : String)
    (env : Nat → CallOutcome) (order : List Nat) (k : Nat)
    (hk : k < (swarmEvents (mkAgents roles) topic env order).length) :
    ∀ (i : Nat) (a a' : Agent),
      (applyEvents ((swarmEvents (mkAgents roles) topic env order).take k)
          (postDeploy topic roles)).agents[i]? = some a →
      (applyEvents ((swarmEvents (mkAgents roles) topic env order).take (k + 1))
          (postDeploy topic roles)).agents[i]? = some a' →
      a'.id = a.id ∧ statusRank a.status ≤ statusRank a'.status ∧
        ∀ tid, eventTarget (swarmEvents (mkAgents roles) topic env order)[k] = some tid →
          a.id ≠ tid → a' = a := by
  intro i a a' ha ha'
  rw [applyEvents_take_succ _ k hk] at ha'
  have hlenA : (analyzingEvents (mkAgents roles)).length = (mkAgents roles).length := by
    rw [analyzingEvents, List.length_map]
  by_cases hkA : k < (analyzingEvents (mkAgents roles)).length
  · -- the step is an `analyzing` update
    have hklt : k < (mkAgents roles).length := by rw [← hlenA]; exact hkA
    have hkm : k < ((mkAgents roles).map (fun a => Event.analyzing a.id)).length := by
      rw [List.length_map]; exact hklt
    have hev : (swarmEvents (mkAgents roles) topic env order)[k]
        = Event.analyzing ((mkAgents roles)[k]).id := by
      have h1 : (swarmEvents (mkAgents roles) topic env order)[k]
          = (analyzingEvents (mkAgents roles))[k] := List.getElem_append_left hkA
      rw [h1]
      show ((mkAgents roles).map (fun a => Event.analyzing a.id))[k] = _
      rw [List.getElem_map]
    -- in the analyzing phase every status is selected or analyzing
    have hstat : ∀ b ∈ (applyEvents ((swarmEvents (mkAgents roles) topic env order).take k)
        (postDeploy topic roles)).agents, b.status = .selected ∨ b.status = .analyzing := by
      have htake : (swarmEvents (mkAgents roles) topic env order).take k
          = (((mkAgents roles).take k).map (fun a => a.id)).map Event.analyzing := by
        show (analyzingEvents (mkAgents roles) ++
          completeEvents (mkAgents roles) topic env order).take k = _
        rw [List.take_append_eq_append_take, Nat.sub_eq_zero_of_le (Nat.le_of_lt hkA),
          List.take_zero, List.append_nil]
        show ((mkAgents roles).map (fun a => Event.analyzing a.id)).take k = _
        rw [← List.map_take, List.map_map]
        rfl
      rw [htake]
      refine applyAnalyzing_status_mem _ _ ?_
      intro b hb
      rcases mem_mkAgents roles b hb with ⟨_, _, _, hst⟩
      exact Or.inl hst
    rw [hev] at ha'
    rcases analyzingUpdate_mono _ _ hstat i a a' ha ha' with ⟨h1, h2, h3⟩
    refine ⟨h1, h2, fun tid htid hne => ?_⟩
    rw [hev] at htid
    have htid2 : tid = ((mkAgents roles)[k]).id := (Option.some.inj htid).symm
    exact h3 (htid2 ▸ hne)
  · -- the step is a `complete` update
    have hB : (completeEvents (mkAgents roles) topic env order).length = order.length := by
      rw [completeEvents, List.length_map]
    have hkB : k - (analyzingEvents (mkAgents roles)).length < order.length := by
      have h2 : k < (analyzingEvents (mkAgents roles)).length
          + (completeEvents (mkAgents roles) topic env order).length := by
        rw [← List.length_append]
        exact hk
      omega
    have hkc : k - (analyzingEvents (mkAgents roles)).length
        < (completeEvents (mkAgents roles) topic env order).length := by
      rw [hB]; exact hkB
    have hkm2 : k - (analyzingEvents (mkAgents roles)).length
        < (order.map (fun i => Event.complete (toString i)
            (agentPromiseValue (mkAgents roles) topic env i).2)).length := by
      rw [List.length_map]; exact hkB
    have hev : (swarmEvents (mkAgents roles) topic env order)[k]
        = Event.complete (toString order[k - (analyzingEvents (mkAgents roles)).length])
            ((agentPromiseValue (mkAgents roles) topic env
              order[k - (analyzingEvents (mkAgents roles)).length]).2) := by
      have h1 : (swarmEvents (mkAgents roles) topic env order)[k]
          = (completeEvents (mkAgents roles) topic env order)[
              k - (analyzingEvents (mkAgents roles)).length] :=
        List.getElem_append_right (Nat.le_of_not_lt hkA)
      rw [h1]
      show (order.map (fun i => Event.complete (toString i)
        (agentPromiseValue (mkAgents roles) topic env i).2))[
          k - (analyzingEvents (mkAgents roles)).length] = _
      rw [List.getElem_map]
    rw [hev] at ha'
    rcases completeUpdate_mono _ _ _ i a a' ha ha' with ⟨h1, h2, h3⟩
    refine ⟨h1, h2, fun tid htid hne => ?_⟩
    rw [hev] at htid
    exact h3 ((Option.some.inj htid).symm ▸ hne)

/-- C9, witness: the second step (index 1) of a concrete two-agent run. -/
theorem c9_witness :
    1 < (swarmEvents (mkAgents [("Finance"), ("Macro")]) ("t")
        (fun _ => .throws) [1, 0]).length ∧
    ∀ (i : Nat) (a a' : Agent),
      (applyEvents ((swarmEvents (mkAgents [("Finance"), ("Macro")]) ("t")
          (fun _ => .throws) [1, 0]).take 1)
          (postDeploy ("t") [("Finance"), ("Macro")])).agents[i]? = some a →
      (applyEvents ((swarmEvents (mkAgents [("Finance"), ("Macro")]) ("t")
          (fun _ => .throws) [1, 0]).take 2)
          (postDeploy ("t") [("Finance"), ("Macro")])).agents[i]? = some a' →
      a'.id = a.id ∧ statusRank a.status ≤ statusRank a'.status ∧
        ∀ tid, eventTarget ((swarmEvents (mkAgents [("Finance"), ("Macro")]) ("t")
            (fun _ => .throws) [1, 0]).get ⟨1, by decide⟩) = some tid →
          a.id ≠ tid → a' = a :=
  ⟨by decide,
   c9_status_monotone [("Finance"), ("Macro")] ("t") (fun _ => .throws) [1, 0] 1 (by decide)⟩

/-! ## Trim and fence-stripping lemmas (for C8) -/

theorem dropWhile_all_ws (w : List Char) (h : w.all isWS = true) :
    w.dropWhile isWS = [] := by
  induction w with
  | nil => rfl
  | cons c rest ih =>
    rw [List.all_cons, Bool.and_eq_true] at h
    rw [List.dropWhile_cons_of_pos h.1]
    exact ih h.2

/-- Trimming ignores pure-whitespace prefixes and suffixes. -/
theorem trimChars_ws_wrap (w₁ w₂ l : List Char)
    (h1 : w₁.all isWS = true) (h2 : w₂.all isWS = true) :
    trimChars (w₁ ++ l ++ w₂) = trimChars l := by
  have hall₁ : ∀ c ∈ w₁, isWS c := List.all_eq_true.mp h1
  have hall₂ : ∀ c ∈ w₂, isWS c := List.all_eq_true.mp h2
  unfold trimChars trimLeft trimRight
  rw [List.append_assoc, List.dropWhile_append_of_pos hall₁, List.dropWhile_append]
  by_cases hnil : (l.dropWhile isWS).isEmpty
  · rw [if_pos hnil, dropWhile_all_ws w₂ h2, List.isEmpty_iff.mp hnil]
  · rw [if_neg hnil, List.reverse_append,
      List.dropWhile_append_of_pos (fun c hc => hall₂ c (List.mem_reverse.mp hc))]

/-- Trimming a list with non-whitespace first and last characters is the
identity. -/
theorem trimChars_cons_concat (c : Char) (m : List Char) (d : Char)
    (hc : isWS c = false) (hd : isWS d = false) :
    trimChars (c :: (m ++ [d])) = c :: (m ++ [d]) := by
  unfold trimChars trimLeft trimRight
  rw [List.dropWhile_cons_of_neg (by simp [hc])]
  rw [show (c :: (m ++ [d])).reverse = d :: (m.reverse ++ [c]) from by simp]
  rw [List.dropWhile_cons_of_neg (by simp [hd])]
  simp

theorem trimChars_fenceJson (t : List Char) :
    trimChars ('`' :: '`' :: '`' :: 'j' :: 's' :: 'o' :: 'n' :: '\n' :: (t ++ ['\n', '`', '`', '`']))
      = '`' :: '`' :: '`' :: 'j' :: 's' :: 'o' :: 'n' :: '\n' :: (t ++ ['\n', '`', '`', '`']) := by
  have hshape : '`' :: '`' :: '`' :: 'j' :: 's' :: 'o' :: 'n' :: '\n' :: (t ++ ['\n', '`', '`', '`'])
      = '`' :: (('`' :: '`' :: 'j' :: 's' :: 'o' :: 'n' :: '\n' :: (t ++ ['\n', '`', '`'])) ++ ['`']) := by
    simp
  rw [hshape]
  exact trimChars_cons_concat '`' _ '`' rfl rfl

theorem trimChars_fencePlain (t : List Char) :
    trimChars ('`' :: '`' :: '`' :: '\n' :: (t ++ ['\n', '`', '`', '`']))
      = '`' :: '`' :: '`' :: '\n' :: (t ++ ['\n', '`', '`', '`']) := by
  have hshape : '`' :: '`' :: '`' :: '\n' :: (t ++ ['\n', '`', '`', '`'])
      = '`' :: (('`' :: '`' :: '\n' :: (t ++ ['\n', '`', '`'])) ++ ['`']) := by
    simp
  rw [hshape]
  exact trimChars_cons_concat '`' _ '`' rfl rfl

theorem suffix_ticks (t : List Char) :
    ("```".data).isSuffixOf ('\n' :: (t ++ ['\n', '`', '`', '`'])) = true := by
  have hrev : ('\n' :: (t ++ ['\n', '`', '`', '`'])).reverse
      = '`' :: '`' :: '`' :: '\n' :: (t.reverse ++ ['\n']) := by
    rw [List.reverse_cons, List.reverse_append]
    simp [List.append_assoc]
  show (("```".data).reverse).isPrefixOf (('\n' :: (t ++ ['\n', '`', '`', '`'])).reverse) = true
  rw [hrev]
  rfl

theorem take_drop_ticks (t : List Char) :
    ('\n' :: (t ++ ['\n', '`', '`', '`'])).take
        (('\n' :: (t ++ ['\n', '`', '`', '`'])).length - 3)
      = '\n' :: (t ++ ['\n']) := by
  have h4 : ('\n' :: (t ++ ['\n', '`', '`', '`']))
      = ('\n' :: (t ++ ['\n'])) ++ ['`', '`', '`'] := by simp
  rw [h4, List.length_append,
    show ('\n' :: (t ++ ['\n'])).length + (['`', '`', '`'] : List Char).length - 3
      = ('\n' :: (t ++ ['\n'])).length from by simp]
  exact List.take_left' rfl

theorem stripFenceMarks_fenceJson (t : List Char) :
    stripFenceMarks ('`' :: '`' :: '`' :: 'j' :: 's' :: 'o' :: 'n' :: '\n' :: (t ++ ['\n', '`', '`', '`']))
      = '\n' :: (t ++ ['\n']) := by
  simp only [stripFenceMarks]
  rw [if_pos (show ("```json".data).isPrefixOf
      ('`' :: '`' :: '`' :: 'j' :: 's' :: 'o' :: 'n' :: '\n' :: (t ++ ['\n', '`', '`', '`'])) = true
    from rfl)]
  rw [show List.drop 7 ('`' :: '`' :: '`' :: 'j' :: 's' :: 'o' :: 'n' :: '\n' :: (t ++ ['\n', '`', '`', '`']))
      = '\n' :: (t ++ ['\n', '`', '`', '`']) from rfl]
  rw [if_pos (suffix_ticks t)]
  exact take_drop_ticks t

theorem stripFenceMarks_fencePlain (t : List Char) :
    stripFenceMarks ('`' :: '`' :: '`' :: '\n' :: (t ++ ['\n', '`', '`', '`']))
      = '\n' :: (t ++ ['\n']) := by
  simp only [stripFenceMarks]
  rw [if_neg (show ¬ ("```json".data).isPrefixOf
      ('`' :: '`' :: '`' :: '\n' :: (t ++ ['\n', '`', '`', '`'])) = true
    from fun h => Bool.false_ne_true h)]
  rw [if_pos (show ("```".data).isPrefixOf
      ('`' :: '`' :: '`' :: '\n' :: (t ++ ['\n', '`', '`', '`'])) = true
    from rfl)]
  rw [show List.drop 3 ('`' :: '`' :: '`' :: '\n' :: (t ++ ['\n', '`', '`', '`']))
      = '\n' :: (t ++ ['\n', '`', '`', '`']) from rfl]
  rw [if_pos (suffix_ticks t)]
  exact take_drop_ticks t

theorem processText_fencedJson (w₁ w₂ t : String)
    (h1 : w₁.data.all isWS = true) (h2 : w₂.data.all isWS = true)
    (ht : ("```".data).isPrefixOf (trimChars t.data) = false) :
    processText (w₁ ++ fencedJson t ++ w₂) = processText t := by
  have hdataJ : (fencedJson t).data
      = '`' :: '`' :: '`' :: 'j' :: 's' :: 'o' :: 'n' :: '\n' :: (t.data ++ ['\n', '`', '`', '`']) := by
    rw [fencedJson, String.data_append, String.data_append, List.append_assoc]
    rfl
  have hd : (w₁ ++ fencedJson t ++ w₂).data
      = w₁.data ++ ('`' :: '`' :: '`' :: 'j' :: 's' :: 'o' :: 'n' :: '\n' ::
          (t.data ++ ['\n', '`', '`', '`'])) ++ w₂.data := by
    rw [String.data_append, String.data_append, hdataJ]
  have htrim : trimChars ((w₁ ++ fencedJson t ++ w₂).data)
      = '`' :: '`' :: '`' :: 'j' :: 's' :: 'o' :: 'n' :: '\n' :: (t.data ++ ['\n', '`', '`', '`']) := by
    rw [hd, trimChars_ws_wrap _ _ _ h1 h2]
    exact trimChars_fenceJson t.data
  simp only [processText]
  rw [htrim]
  rw [if_pos (show ("```".data).isPrefixOf
      ('`' :: '`' :: '`' :: 'j' :: 's' :: 'o' :: 'n' :: '\n' :: (t.data ++ ['\n', '`', '`', '`'])) = true
    from rfl)]
  rw [stripFenceMarks_fenceJson]
  have hmid : trimChars ('\n' :: (t.data ++ ['\n'])) = trimChars t.data :=
    trimChars_ws_wrap ['\n'] ['\n'] t.data rfl rfl
  rw [hmid]
  rw [if_neg (fun h => by rw [ht] at h; exact Bool.false_ne_true h)]

theorem processText_fencedPlain (w₁ w₂ t : String)
    (h1 : w₁.data.all isWS = true) (h2 : w₂.data.all isWS = true)
    (ht : ("```".data).isPrefixOf (trimChars t.data) = false) :
    processText (w₁ ++ fencedPlain t ++ w₂) = processText t := by
  have hdataP : (fencedPlain t).data
      = '`' :: '`' :: '`' :: '\n' :: (t.data ++ ['\n', '`', '`', '`']) := by
    rw [fencedPlain, String.data_append, String.data_append, List.append_assoc]
    rfl
  have hd : (w₁ ++ fencedPlain t ++ w₂).data
      = w₁.data ++ ('`' :: '`' :: '`' :: '\n' ::
          (t.data ++ ['\n', '`', '`', '`'])) ++ w₂.data := by
    rw [String.data_append, String.data_append, hdataP]
  have htrim : trimChars ((w₁ ++ fencedPlain t ++ w₂).data)
      = '`' :: '`' :: '`' :: '\n' :: (t.data ++ ['\n', '`', '`', '`']) := by
    rw [hd, trimChars_ws_wrap _ _ _ h1 h2]
    exact trimChars_fencePlain t.data
  simp only [processText]
  rw [htrim]
  rw [if_pos (show ("```".data).isPrefixOf
      ('`' :: '`' :: '`' :: '\n' :: (t.data ++ ['\n', '`', '`', '`'])) = true
    from rfl)]
  rw [stripFenceMarks_fencePlain]
  have hmid : trimChars ('\n' :: (t.data ++ ['\n'])) = trimChars t.data :=
    trimChars_ws_wrap ['\n'] ['\n'] t.data rfl rfl
  rw [hmid]
  rw [if_neg (fun h => by rw [ht] at h; exact Bool.false_ne_true h)]

/-- C8: wrapping a response text in a fenced code block (```` ```json ````
or plain ```` ``` ````, with any surrounding whitespace) does not change the
result of `runAgentAnalysis`: the fence markers are stripped before parsing.
The side condition — the bare text does not itself start with a fence —
holds for every JSON text. -/
theorem c8_fence_stripping (role topic w₁ w₂ t : String)
    (h1 : w₁.data.all isWS = true) (h2 : w₂.data.all isWS = true)
    (ht : ("```".data).isPrefixOf (trimChars t.data) = false) :
    runAgentAnalysis role topic (.text (w₁ ++ fencedJson t ++ w₂))
        = runAgentAnalysis role topic (.text t) ∧
    runAgentAnalysis role topic (.text (w₁ ++ fencedPlain t ++ w₂))
        = runAgentAnalysis role topic (.text t) := by
  constructor
  · show (match jsonParse (processText (w₁ ++ fencedJson t ++ w₂)) with
      | some v => v
      | none => sentinelFindings)
      = runAgentAnalysis role topic (.text t)
    rw [processText_fencedJson w₁ w₂ t h1 h2 ht]
    rfl
  · show (match jsonParse (processText (w₁ ++ fencedPlain t ++ w₂)) with
      | some v => v
      | none => sentinelFindings)
      = runAgentAnalysis role topic (.text t)
    rw [processText_fencedPlain w₁ w₂ t h1 h2 ht]
    rfl

/-- C8, witness at a concrete fenced JSON object with surrounding
whitespace. -/
theorem c8_witness :
    (" ".data.all isWS = true) ∧ ("\n".data.all isWS = true) ∧
    (("```".data).isPrefixOf (trimChars ("\x7b\"a\":1\x7d").data) = false) ∧
    runAgentAnalysis ("Finance") ("t")
        (.text (" " ++ fencedJson ("\x7b\"a\":1\x7d") ++ "\n"))
      = runAgentAnalysis ("Finance") ("t") (.text ("\x7b\"a\":1\x7d")) :=
  ⟨rfl, rfl, rfl,
   (c8_fence_stripping ("Finance") ("t") (" ") ("\n") ("\x7b\"a\":1\x7d") rfl rfl rfl).1⟩
